import Mathlib

/-!
Shallow embedding of the Launch Orchestration and Window Tracking Engine of
the Respace Raycast extension (src/core/launcher and its strategies), with
theorems checking the natural-language specification against the code.

The embedding follows the current (phased) implementation:
* `src/core/launcher/strategies/app-launcher.ts` (phased revision):
  `captureBeforeState`, `captureAfterState`, `verifyWindows`, `execWithTimeout`,
  `isAppRunning`, `getWindowIds`, `getWindowTitle`;
* `src/core/launcher/launcher.ts` (phased revision): `verifyAllWindows`,
  `launchWorkspace` (delay buckets, three-phase protocol, error accounting).

Asynchronous OS probes (scripting-bridge calls) are modelled as a pure
environment `Probe`: each query is a total function from the query arguments
to the answer the OS would give at that moment.  JavaScript `Map` objects keep
keys in insertion order; the grouping loops over them are modelled by
`groupByKey`, which groups a list by key, keys in first-occurrence order and
group members in original order.
-/

namespace Respace

/-- The items of `WorkspaceItemType` in `src/types/workspace.ts`:
`"app" | "folder" | "file" | "url" | "terminal"`. -/
inductive WorkspaceItemType where
  | app
  | folder
  | file
  | url
  | terminal
deriving DecidableEq, Repr

/-- Type `TrackingMode` from `src/types/workspace.ts`: `"window" | "app"`. -/
inductive TrackingMode where
  | window
  | app
deriving DecidableEq, Repr

/-- Structure `WorkspaceItem` from `src/types/workspace.ts`.  The optional `delay`
field is the per-item launch delay in milliseconds. -/
structure WorkspaceItem where
  id : String
  type : WorkspaceItemType
  name : String
  path : String
  delay : Option Nat := none
deriving DecidableEq, Repr

/-- Structure `TrackedWindow` from `src/types/workspace.ts`: the durable output of a
launch.  `systemWindowId = 0` is the sentinel meaning the artifact denotes
the whole application. -/
structure TrackedWindow where
  id : String
  systemWindowId : Int
  itemId : String
  appName : String
  windowTitle : Option String
  type : WorkspaceItemType
  trackingMode : TrackingMode
  launchedAt : Nat
deriving DecidableEq, Repr

/-- Structure `BeforeLaunchState` from `src/core/launcher/strategies/base-strategy.ts`,
produced by `AppLauncher.captureBeforeState`. -/
structure BeforeLaunchState where
  item : WorkspaceItem
  wasRunning : Bool
  windowIdsBefore : List Int
  appName : String
deriving DecidableEq, Repr

/-- The OS window probe, modelled as a pure environment: `isRunning` is the
answer `AppLauncher.isAppRunning` observes, `windowIds` the parsed result of
`AppLauncher.getWindowIds`, and `windowTitle` the result of
`AppLauncher.getWindowTitle` for one window id. -/
structure Probe where
  isRunning : String → Bool
  windowIds : String → List Int
  windowTitle : String → Int → Option String

/-- The set difference computed in `AppLauncher.captureAfterState`:
`afterIds.filter((id) => !windowIdsBefore.includes(id))`, where `afterIds`
is the after-launch window-id query. -/
def newWindowIds (env : Probe) (st : BeforeLaunchState) : List Int :=
  (env.windowIds st.appName).filter (fun id => ¬ st.windowIdsBefore.contains id)

/-- Model of `AppLauncher.captureAfterState` (phased app launcher): query the window
ids again, diff against `windowIdsBefore`, and resolve the tracking mode:
* at least one new id: one window-mode artifact per new id, title fetched
  per id via the probe;
* no new id and the process was not running before: exactly one app-mode
  artifact with the sentinel window id `0` and the app name as its title;
* no new id and the process was already running: no artifact.

`uuid` supplies the engine-generated `randomUUID()` values (one per produced
artifact, by position) and `now` the `Date.now()` timestamp.  The settle and
poll delays before the query are timing behaviour with no effect on the
value returned and are not part of the value-level model. -/
def captureAfterState (env : Probe) (uuid : Nat → String) (now : Nat)
    (st : BeforeLaunchState) : List TrackedWindow :=
  let ids := newWindowIds env st
  if ids.length > 0 then
    ids.enum.map (fun p =>
      { id := uuid p.1
        systemWindowId := p.2
        itemId := st.item.id
        appName := st.appName
        windowTitle := env.windowTitle st.appName p.2
        type := st.item.type
        trackingMode := TrackingMode.window
        launchedAt := now })
  else if !st.wasRunning then
    [{ id := uuid 0
       systemWindowId := 0
       itemId := st.item.id
       appName := st.appName
       windowTitle := some st.appName
       type := st.item.type
       trackingMode := TrackingMode.app
       launchedAt := now }]
  else
    []

/-- The name resolution of `AppLauncher.getAppName` strips the regex `/\.app$/` from `item.path`. -/
def stripAppSuffix (path : String) : String :=
  if path.endsWith ".app" then path.dropRight 4 else path

/-- Model of `AppLauncher.getAppName`: `item.path.replace(/\.app$/, "").split("/").pop()`;
the code throws when the result is falsy (the empty string), modelled by
`none`. -/
def getAppName (path : String) : Option String :=
  match ((stripAppSuffix path).splitOn "/").getLast? with
  | none => none
  | some s => if s = "" then none else some s

/-- Model of `AppLauncher.captureBeforeState`: resolve the app name, then query
liveness and window ids (concurrently in the source, with no data
dependency).  The throw on an unusable path is modelled as an error. -/
def captureBeforeState (env : Probe) (item : WorkspaceItem) :
    Except String BeforeLaunchState :=
  match getAppName item.path with
  | none => Except.error "Could not extract app name from path"
  | some appName =>
      Except.ok
        { item := item
          wasRunning := env.isRunning appName
          windowIdsBefore := env.windowIds appName
          appName := appName }

/-- Model of `AppLauncher.launch` (sequential path): capture before, issue the OS
launch command, capture after.  `envBefore` and `envAfter` are the probe
answers before and after the launch command took effect; any error is
wrapped in a `Failed to launch` message by the `catch` block. -/
def launchSequential (envBefore envAfter : Probe) (uuid : Nat → String)
    (now : Nat) (item : WorkspaceItem) : Except String (List TrackedWindow) :=
  match captureBeforeState envBefore item with
  | Except.error e =>
      Except.error ("Failed to launch " ++ item.name ++ ": " ++ e)
  | Except.ok st => Except.ok (captureAfterState envAfter uuid now st)

/-! Concrete fixtures used by the witness theorems. -/

/-- A concrete application item. -/
def itemCal : WorkspaceItem :=
  { id := "item-1", type := WorkspaceItemType.app, name := "Calendar"
    path := "/Applications/Calendar.app", delay := none }

/-- A probe that reports two windows for every process. -/
def probeTwo : Probe :=
  { isRunning := fun _ => true
    windowIds := fun _ => [1, 2]
    windowTitle := fun _ _ => none }

/-- A probe that reports no window for any process. -/
def probeNone : Probe :=
  { isRunning := fun _ => false
    windowIds := fun _ => []
    windowTitle := fun _ _ => none }

/-- A fixed uuid supply. -/
def uuidFix : Nat → String := fun _ => "u"

/-- A before-state in which one window id was already present. -/
def stOneBefore : BeforeLaunchState :=
  { item := itemCal, wasRunning := true, windowIdsBefore := [1]
    appName := "Calendar" }

/-- A before-state for a process that was not running. -/
def stNotRunning : BeforeLaunchState :=
  { item := itemCal, wasRunning := false, windowIdsBefore := []
    appName := "Calendar" }

/-! ### Grouping

The verification and scheduling code groups lists through a JavaScript
`Map`: iterate the list, appending each element to the entry of its key.
The observable content of such a map is the keys in first-occurrence order,
each with its members in original list order.  `keyList` computes the keys
in first-occurrence order and `groupByKey` the grouped pairs. -/

/-- The keys of `l` under `key`, in first-occurrence order, without
duplicates. -/
def keyList {α κ : Type} [DecidableEq κ] (key : α → κ) : List α → List κ
  | [] => []
  | x :: xs => key x :: (keyList key xs).filter (fun k => !decide (k = key x))

/-- Group a list by key: the content of the `Map` built by the grouping
loops (`windowsByApp`, `windowsByType`, `appsByDelay`). -/
def groupByKey {α κ : Type} [DecidableEq κ] (key : α → κ) (l : List α) :
    List (κ × List α) :=
  (keyList key l).map (fun k => (k, l.filter (fun y => decide (key y = k))))

theorem keyList_nodup {α κ : Type} [DecidableEq κ] (key : α → κ) :
    (l : List α) → (keyList key l).Nodup
  | [] => List.nodup_nil
  | x :: xs => by
      rw [keyList]
      refine List.nodup_cons.mpr ⟨?_, (keyList_nodup key xs).filter _⟩
      intro hmem
      have := List.of_mem_filter hmem
      simp at this

theorem mem_keyList {α κ : Type} [DecidableEq κ] (key : α → κ)
    (l : List α) (k : κ) : k ∈ keyList key l ↔ ∃ x ∈ l, key x = k := by
  induction l with
  | nil => simp [keyList]
  | cons x xs ih =>
      rw [keyList]
      constructor
      · intro h
        rcases List.mem_cons.mp h with h | h
        · exact ⟨x, by simp, h.symm⟩
        · obtain ⟨y, hy, hk⟩ := ih.mp (List.mem_of_mem_filter h)
          exact ⟨y, by simp [hy], hk⟩
      · rintro ⟨y, hy, rfl⟩
        rcases List.mem_cons.mp hy with rfl | hy
        · exact List.mem_cons_self _ _
        · by_cases hk : key y = key x
          · rw [hk]; exact List.mem_cons_self _ _
          · refine List.mem_cons_of_mem _ (List.mem_filter.mpr ?_)
            exact ⟨ih.mpr ⟨y, hy, rfl⟩, by simpa using hk⟩

/-! ### Verification (`AppLauncher.verifyWindows`) -/

/-- The body of the per-process loop in `AppLauncher.verifyWindows`: if the
process is dead the whole group is dropped; otherwise app-mode artifacts in
the group are kept unconditionally, and window-mode artifacts are kept
exactly when their `systemWindowId` is in the re-queried window-id set.
The app-mode artifacts are pushed first, as in the source.  (The source
skips the window-id query when the group has no window-mode artifacts;
with a pure probe the result is the same.) -/
def processGroup (env : Probe) (appName : String)
    (g : List TrackedWindow) : List TrackedWindow :=
  if env.isRunning appName then
    g.filter (fun w => decide (w.trackingMode = TrackingMode.app)) ++
      (g.filter (fun w => decide (w.trackingMode = TrackingMode.window))).filter
        (fun w => (env.windowIds appName).contains w.systemWindowId)
  else []

/-- Model of `AppLauncher.verifyWindows`: group the artifacts by `appName` and run
the per-process verification loop on each group, concatenating the
survivors.  The `try`/`catch` around each group never fires under a pure
probe. -/
def verifyWindows (env : Probe) (ws : List TrackedWindow) :
    List TrackedWindow :=
  (groupByKey (fun w => w.appName) ws).flatMap
    (fun p => processGroup env p.1 p.2)

/-! ### The scripting-bridge layer (`execWithTimeout` and the probes) -/

/-- The possible outcomes of one scripting-bridge invocation as observed
by `execWithTimeout`: the timer fired first (the child is killed), `exec`
reported an error, or the command completed with some stdout. -/
inductive ExecOutcome where
  | timeout
  | bridgeError
  | completed (stdout : String)
deriving DecidableEq, Repr

/-- Model of `execWithTimeout` from the phased app launcher: resolves with the
stdout of the command, or with the empty string when the timer fires or
`exec` reports an error.  It resolves in every case — it never rejects. -/
def execWithTimeout (o : ExecOutcome) : String :=
  match o with
  | ExecOutcome.timeout => ""
  | ExecOutcome.bridgeError => ""
  | ExecOutcome.completed s => s

/-- JavaScript `String.prototype.trim` on a character list: drop the
whitespace at both ends. -/
def jsTrimChars (cs : List Char) : List Char :=
  ((cs.dropWhile Char.isWhitespace).reverse.dropWhile
    Char.isWhitespace).reverse

/-- JavaScript `String.prototype.trim`. -/
def jsTrim (s : String) : String :=
  String.mk (jsTrimChars s.data)

/-- JavaScript `String.prototype.split(",")` on a character list:
`"".split(",")` is `[""]`, and separators delimit possibly empty pieces. -/
def splitOnComma : List Char → List (List Char)
  | [] => [[]]
  | c :: rest =>
      if c = ',' then [] :: splitOnComma rest
      else
        match splitOnComma rest with
        | [] => [[c]]
        | g :: gs => (c :: g) :: gs

/-- The longest leading digit run as a number; `none` when there is no
leading digit (`Number.parseInt` returns `NaN` then). -/
def parseLeadingNat (cs : List Char) : Option Nat :=
  let ds := cs.takeWhile (fun c => c.isDigit)
  if ds.isEmpty then none
  else some (ds.foldl (fun acc c => acc * 10 + (c.toNat - 48)) 0)

/-- JavaScript `Number.parseInt(s, 10)` on an already trimmed character list: an
optional sign followed by leading digits; `none` models `NaN`. -/
def parseIntJS (cs : List Char) : Option Int :=
  match cs with
  | '-' :: rest => (parseLeadingNat rest).map (fun n => -(n : Int))
  | '+' :: rest => (parseLeadingNat rest).map (fun n => (n : Int))
  | _ => (parseLeadingNat cs).map (fun n => (n : Int))

/-- The parsing in `AppLauncher.getWindowIdsViaDirectApp`: trim the
output, return the empty list when it is empty, otherwise split on commas,
parse each trimmed entry as an integer and drop unparsable entries. -/
def parseWindowIds (stdout : String) : List Int :=
  let trimmed := jsTrim stdout
  if trimmed = "" then []
  else (splitOnComma trimmed.data).filterMap
    (fun cs => parseIntJS (jsTrimChars cs))

/-- Model of `AppLauncher.getWindowIdsViaDirectApp`, which is all of
`AppLauncher.getWindowIds` in the phased revision: run the window-id
osascript through `execWithTimeout` (2000 ms bound) and parse the
output. -/
def getWindowIds (o : ExecOutcome) : List Int :=
  parseWindowIds (execWithTimeout o)

/-- Model of `AppLauncher.getWindowTitle`: run the title script through
`execWithTimeout` (1000 ms bound), trim, and return `undefined` (here
`none`) when the output is empty. -/
def getWindowTitle (o : ExecOutcome) : Option String :=
  let title := jsTrim (execWithTimeout o)
  if title = "" then none else some title

/-- Model of `AppLauncher.isAppRunning` (phased revision): a `pgrep` call whose
rejection is caught and turned into `false`; otherwise the process is
reported running exactly when the trimmed output is non-empty. -/
def isAppRunning (res : Except String String) : Bool :=
  match res with
  | Except.error _ => false
  | Except.ok out => decide ((jsTrim out).length > 0)

/-! ### `verifyAllWindows` (launcher.ts) -/

/-- One registered strategy's `verifyWindows` method as invoked by
`verifyAllWindows`: it either returns the surviving artifacts or throws,
the throw modelled by `Except.error`. -/
def StrategyVerify : Type :=
  List TrackedWindow → Except String (List TrackedWindow)

/-- Model of `verifyAllWindows` from `src/core/launcher/launcher.ts`: group the
artifacts by item type; skip a group whose type has no registered
strategy; run the strategy's `verifyWindows` on each remaining group and
append the survivors, the `catch` dropping a whole group whose strategy
threw. -/
def verifyAllWindows (registry : WorkspaceItemType → Option StrategyVerify)
    (ws : List TrackedWindow) : List TrackedWindow :=
  (groupByKey (fun w => w.type) ws).flatMap (fun p =>
    match registry p.1 with
    | none => []
    | some f =>
        match f p.2 with
        | Except.ok kept => kept
        | Except.error _ => [])

/-- A registry for the witness: the app strategy keeps every artifact,
the url strategy throws, and no strategy is registered for the other
types. -/
def registryW : WorkspaceItemType → Option StrategyVerify :=
  fun ty =>
    match ty with
    | WorkspaceItemType.app => some (fun g => Except.ok g)
    | WorkspaceItemType.url => some (fun _ => Except.error "boom")
    | _ => none

/-- An app-type artifact for the witnesses. -/
def twApp : TrackedWindow :=
  { id := "w1", systemWindowId := 7, itemId := "item-1"
    appName := "Calendar", windowTitle := none
    type := WorkspaceItemType.app, trackingMode := TrackingMode.window
    launchedAt := 0 }

/-- A url-type artifact for the witnesses. -/
def twUrl : TrackedWindow :=
  { id := "w2", systemWindowId := 0, itemId := "item-2"
    appName := "Safari", windowTitle := none
    type := WorkspaceItemType.url, trackingMode := TrackingMode.app
    launchedAt := 0 }

/-- A file-type artifact for the witnesses. -/
def twFile : TrackedWindow :=
  { id := "w3", systemWindowId := 0, itemId := "item-3"
    appName := "Finder", windowTitle := none
    type := WorkspaceItemType.file, trackingMode := TrackingMode.app
    launchedAt := 0 }

/-! ### The launch scheduler (`launchWorkspace`, phased revision) -/

/-- The delay key `item.delay || 0` used used for bucketing. -/
def delayOf (i : WorkspaceItem) : Nat := i.delay.getD 0

/-- The application items: `items.filter((item) => item.type === "app")`. -/
def appItems (items : List WorkspaceItem) : List WorkspaceItem :=
  items.filter (fun i => decide (i.type = WorkspaceItemType.app))

/-- The remaining items: `items.filter((item) => item.type !== "app")`. -/
def otherItems (items : List WorkspaceItem) : List WorkspaceItem :=
  items.filter (fun i => !decide (i.type = WorkspaceItemType.app))

/-- The sorted delay keys `Array.from(appsByDelay.keys()).sort((a, b) => a - b)`: the distinct
delay values of the application items, ascending. -/
def sortedDelays (items : List WorkspaceItem) : List Nat :=
  List.insertionSort (· ≤ ·) (keyList delayOf (appItems items))

/-- The group `appsByDelay.get(delayMs)`: the bucket of application items sharing
one delay value, in original order. -/
def bucketOf (items : List WorkspaceItem) (d : Nat) : List WorkspaceItem :=
  (appItems items).filter (fun i => decide (delayOf i = d))

/-- The observable scheduling events of the application pipeline: the
inter-bucket suspension `await delay(delayMs)`, the three phase barriers
of a bucket, and the fixed 1500 ms settle wait before the after-capture.
Events carry the delay key of their bucket. -/
inductive SchedEvent where
  | suspend (ms : Nat)
  | phaseA (d : Nat) (bucket : List WorkspaceItem)
  | phaseB (d : Nat) (bucket : List WorkspaceItem)
  | settle (d : Nat)
  | phaseC (d : Nat) (bucket : List WorkspaceItem)
deriving DecidableEq, Repr

/-- The events of one delay bucket in program order: suspend for the
bucket delay when it is positive, then capture-before for every bucket
item concurrently (phase A), launch every item concurrently (phase B),
wait the fixed settle delay, and capture-after for every item
concurrently (phase C). -/
def bucketTrace (d : Nat) (g : List WorkspaceItem) : List SchedEvent :=
  (if 0 < d then [SchedEvent.suspend d] else []) ++
    [SchedEvent.phaseA d g, SchedEvent.phaseB d g,
      SchedEvent.settle d, SchedEvent.phaseC d g]

/-- The event trace of the application-bucket loop of `launchWorkspace`:
the buckets are processed sequentially in ascending delay order. -/
def appSchedule (items : List WorkspaceItem) : List SchedEvent :=
  (sortedDelays items).flatMap (fun d => bucketTrace d (bucketOf items d))

/-! ### Per-item launch scheduling of non-application items -/

/-- One step in the handling of a single item: a suspension or the issuing
of the OS launch command. -/
inductive LaunchStep where
  | sleep (ms : Nat)
  | issueLaunch (i : WorkspaceItem)
deriving DecidableEq, Repr

/-- The task spawned per non-application item by the phased
`launchWorkspace` (`otherPromises`): it awaits `launchItem(item)`
directly; no delay call occurs on this path. -/
def otherItemSteps (i : WorkspaceItem) : List LaunchStep :=
  [LaunchStep.issueLaunch i]

/-- The per-item body of the sequential `launchWorkspace` revisions
(`src/utils/launcher.ts` and the first revision of
`core/launcher/launcher.ts`): suspend for the configured delay when
positive, then launch. -/
def sequentialItemSteps (i : WorkspaceItem) : List LaunchStep :=
  (if 0 < delayOf i then [LaunchStep.sleep (delayOf i)] else []) ++
    [LaunchStep.issueLaunch i]

/-- Stated from the claim, for comparison: the total suspension preceding
the first launch command of a step list. -/
def sleepBeforeLaunch : List LaunchStep → Nat
  | [] => 0
  | LaunchStep.sleep ms :: rest => ms + sleepBeforeLaunch rest
  | LaunchStep.issueLaunch _ :: _ => 0

/-- A url item with a configured 500 ms delay. -/
def itemUrl500 : WorkspaceItem :=
  { id := "item-2", type := WorkspaceItemType.url, name := "GitHub"
    path := "https://github.com", delay := some 500 }

/-- An application item with a configured 500 ms delay. -/
def itemApp500 : WorkspaceItem :=
  { id := "item-4", type := WorkspaceItemType.app, name := "Spotify"
    path := "/Applications/Spotify.app", delay := some 500 }

/-! ### Error accounting of `launchWorkspace` (phased revision) -/

/-- The launch outcomes of one run: for each application item the result
of its `open` command inside phase B (`launchOnly`), and for each other
item the result of its strategy's `launch`. -/
structure LaunchEnv where
  appLaunch : WorkspaceItem → Except String Unit
  otherLaunch : WorkspaceItem → Except String (List TrackedWindow)

/-- The user-facing terminal report of `launchWorkspace`. -/
structure LaunchReport where
  total : Nat
  successCount : Nat
  errors : List String
deriving DecidableEq, Repr

/-- The accounting of the phased `launchWorkspace`: inside the bucket loop
every phase promise carries its own `catch` (capture-before errors become
`null`, `launchOnly` errors are logged and discarded, capture-after errors
become `[]`), so the group-level `catch` cannot fire and no application
item ever records an error; the non-application tasks record their
failures in `errors`.  The report computes
`successCount = items.length - errors.length` and surfaces `errors[0]`
when any error was recorded. -/
def launchWorkspaceReport (env : LaunchEnv) (items : List WorkspaceItem) :
    LaunchReport :=
  let errs := (otherItems items).filterMap (fun i =>
    match env.otherLaunch i with
    | Except.ok _ => none
    | Except.error e => some e)
  { total := items.length
    successCount := items.length - errs.length
    errors := errs }

/-- Stated from the claim, for comparison with the report: an item
launched successfully when its own launch command succeeded. -/
def launchSucceeded (env : LaunchEnv) (i : WorkspaceItem) : Bool :=
  if i.type = WorkspaceItemType.app then
    match env.appLaunch i with
    | Except.ok _ => true
    | Except.error _ => false
  else
    match env.otherLaunch i with
    | Except.ok _ => true
    | Except.error _ => false

/-- The error text of a failed launch, empty for a success. -/
def errTextOf (r : Except String (List TrackedWindow)) : String :=
  match r with
  | Except.ok _ => ""
  | Except.error e => e

/-- An environment in which every application launch command fails and
every other launch succeeds. -/
def envAppFails : LaunchEnv :=
  { appLaunch := fun _ => Except.error "open failed"
    otherLaunch := fun _ => Except.ok [] }

end Respace

namespace Respace

/-- Claim C1 helper: every artifact produced on the window branch. -/
theorem captureAfterState_of_ne_nil (env : Probe) (uuid : Nat → String) (now : Nat)
    (st : BeforeLaunchState) (h : newWindowIds env st ≠ []) :
    captureAfterState env uuid now st =
      (newWindowIds env st).enum.map (fun p =>
        { id := uuid p.1
          systemWindowId := p.2
          itemId := st.item.id
          appName := st.appName
          windowTitle := env.windowTitle st.appName p.2
          type := st.item.type
          trackingMode := TrackingMode.window
          launchedAt := now }) := by
  unfold captureAfterState
  simp only [List.length_pos]
  rw [if_pos h]

/-- C1: when the after-launch window-id query minus the before-launch set
yields at least one new id, `captureAfterState` produces exactly as many
artifacts as there are new ids, each with window tracking mode, and their
`systemWindowId`s are pairwise distinct and are exactly the new ids (no
extras, no omissions).  The hypothesis that the probe answer has no
duplicate ids is the window-probe contract (window ids are an ordered
set). -/
theorem captureAfterState_window_mode (env : Probe) (uuid : Nat → String)
    (now : Nat) (st : BeforeLaunchState)
    (hids : (env.windowIds st.appName).Nodup)
    (hne : newWindowIds env st ≠ []) :
    (captureAfterState env uuid now st).length = (newWindowIds env st).length ∧
    (∀ w ∈ captureAfterState env uuid now st,
      w.trackingMode = TrackingMode.window) ∧
    ((captureAfterState env uuid now st).map TrackedWindow.systemWindowId).Nodup ∧
    (captureAfterState env uuid now st).map TrackedWindow.systemWindowId
      = newWindowIds env st := by
  rw [captureAfterState_of_ne_nil env uuid now st hne]
  have hmap : ((newWindowIds env st).enum.map (fun p =>
      ({ id := uuid p.1
         systemWindowId := p.2
         itemId := st.item.id
         appName := st.appName
         windowTitle := env.windowTitle st.appName p.2
         type := st.item.type
         trackingMode := TrackingMode.window
         launchedAt := now } : TrackedWindow))).map TrackedWindow.systemWindowId
        = newWindowIds env st := by
    rw [List.map_map]
    exact List.enum_map_snd (newWindowIds env st)
  refine ⟨?_, ?_, ?_, hmap⟩
  · simp
  · intro w hw
    simp only [List.mem_map] at hw
    obtain ⟨p, _, rfl⟩ := hw
    rfl
  · rw [hmap]
    exact hids.filter _

/-- C1 witness: a process with one pre-existing window gains one new
window; exactly one window-mode artifact is produced for it. -/
theorem captureAfterState_window_mode_witness :
    (captureAfterState probeTwo uuidFix 0 stOneBefore).length
        = (newWindowIds probeTwo stOneBefore).length ∧
    (∀ w ∈ captureAfterState probeTwo uuidFix 0 stOneBefore,
      w.trackingMode = TrackingMode.window) ∧
    ((captureAfterState probeTwo uuidFix 0 stOneBefore).map
        TrackedWindow.systemWindowId).Nodup ∧
    (captureAfterState probeTwo uuidFix 0 stOneBefore).map
        TrackedWindow.systemWindowId = newWindowIds probeTwo stOneBefore :=
  captureAfterState_window_mode probeTwo uuidFix 0 stOneBefore
    (by decide) (by decide)

/-- C2: when the after-minus-before window-id difference is empty,
`captureAfterState` produces exactly one app-mode artifact with the
sentinel window id `0` if the process was not already running, and no
artifact at all if it was. -/
theorem captureAfterState_empty_diff (env : Probe) (uuid : Nat → String)
    (now : Nat) (st : BeforeLaunchState)
    (hempty : newWindowIds env st = []) :
    (st.wasRunning = false →
      (captureAfterState env uuid now st).length = 1 ∧
      ∀ w ∈ captureAfterState env uuid now st,
        w.trackingMode = TrackingMode.app ∧ w.systemWindowId = 0) ∧
    (st.wasRunning = true → captureAfterState env uuid now st = []) := by
  unfold captureAfterState
  rw [hempty]
  constructor
  · intro hrun
    rw [hrun]
    simp
  · intro hrun
    rw [hrun]
    simp

/-- C2 witness: a process that was not running and exposes no window ids
yields exactly one sentinel artifact. -/
theorem captureAfterState_empty_diff_witness :
    (stNotRunning.wasRunning = false →
      (captureAfterState probeNone uuidFix 0 stNotRunning).length = 1 ∧
      ∀ w ∈ captureAfterState probeNone uuidFix 0 stNotRunning,
        w.trackingMode = TrackingMode.app ∧ w.systemWindowId = 0) ∧
    (stNotRunning.wasRunning = true →
      captureAfterState probeNone uuidFix 0 stNotRunning = []) :=
  captureAfterState_empty_diff probeNone uuidFix 0 stNotRunning (by decide)

/-- Helper for C4: artifacts created by `captureAfterState` satisfy the
sentinel invariant. -/
theorem captureAfterState_sentinel (env : Probe) (uuid : Nat → String)
    (now : Nat) (st : BeforeLaunchState) :
    ∀ w ∈ captureAfterState env uuid now st,
      w.trackingMode = TrackingMode.app → w.systemWindowId = 0 := by
  intro w hw hmode
  unfold captureAfterState at hw
  by_cases hne : (newWindowIds env st).length > 0
  · rw [if_pos hne] at hw
    simp only [List.mem_map] at hw
    obtain ⟨p, _, rfl⟩ := hw
    exact absurd hmode (by simp)
  · rw [if_neg hne] at hw
    by_cases hrun : st.wasRunning
    · simp [hrun] at hw
    · simp only [hrun] at hw
      simp only [Bool.not_false, if_pos] at hw
      rw [List.mem_singleton] at hw
      rw [hw]

/-- C4: every artifact created with application tracking mode carries the
sentinel `systemWindowId = 0`, both in the phased capture-after step and in
the sequential launch path. -/
theorem app_mode_has_sentinel (envB envA env : Probe) (uuid : Nat → String)
    (now : Nat) (st : BeforeLaunchState) (item : WorkspaceItem)
    (w : TrackedWindow)
    (hw : w ∈ captureAfterState env uuid now st ∨
      ∃ ws, launchSequential envB envA uuid now item = Except.ok ws ∧ w ∈ ws)
    (hmode : w.trackingMode = TrackingMode.app) :
    w.systemWindowId = 0 := by
  rcases hw with hw | ⟨ws, hok, hw⟩
  · exact captureAfterState_sentinel env uuid now st w hw hmode
  · unfold launchSequential at hok
    cases hbs : captureBeforeState envB item with
    | error e => rw [hbs] at hok; exact absurd hok (by simp)
    | ok st' =>
        rw [hbs] at hok
        simp only [Except.ok.injEq] at hok
        subst hok
        exact captureAfterState_sentinel envA uuid now st' w hw hmode

/-! ### Helper lemmas about filters, flat maps and grouping -/

theorem filter_idem {α : Type} (p : α → Bool) (l : List α) :
    (l.filter p).filter p = l.filter p := by
  rw [List.filter_filter]
  simp

theorem flatMap_congr_mem {α β : Type} (l : List α) (f g : α → List β)
    (h : ∀ x ∈ l, f x = g x) : l.flatMap f = l.flatMap g := by
  induction l with
  | nil => rfl
  | cons a t ih =>
      simp only [List.flatMap_cons]
      rw [h a (by simp), ih (fun x hx => h x (by simp [hx]))]

theorem flatMap_filter_eq {α β : Type} (l : List α) (p : α → Bool)
    (f : α → List β) (h : ∀ x ∈ l, p x = false → f x = []) :
    (l.filter p).flatMap f = l.flatMap f := by
  induction l with
  | nil => rfl
  | cons a t ih =>
      have iht := ih (fun x hx hp => h x (by simp [hx]) hp)
      cases hpa : p a with
      | true => simp only [List.filter_cons_of_pos hpa, List.flatMap_cons, iht]
      | false =>
          rw [List.filter_cons_of_neg (by simp [hpa]), iht, List.flatMap_cons,
            h a (by simp) hpa, List.nil_append]

theorem keyList_append_homog {α κ : Type} [DecidableEq κ] (key : α → κ)
    (k : κ) (g rest : List α) (hg : ∀ x ∈ g, key x = k) :
    keyList key (g ++ rest) =
      if g.isEmpty then keyList key rest
      else k :: (keyList key rest).filter (fun k2 => !decide (k2 = k)) := by
  induction g with
  | nil => simp
  | cons a g' ih =>
      have hak : key a = k := hg a (by simp)
      have hg' : ∀ x ∈ g', key x = k := fun x hx => hg x (by simp [hx])
      rw [List.cons_append, keyList, ih hg']
      by_cases hg'e : g'.isEmpty
      · rw [if_pos hg'e]
        simp [hak]
      · rw [if_neg hg'e, hak, List.filter_cons_of_neg (by simp), filter_idem]
        simp

theorem keyList_flatMap_chunks {α κ : Type} [DecidableEq κ] (key : α → κ)
    (chunk : κ → List α) :
    (ks : List κ) → ks.Nodup → (∀ k ∈ ks, ∀ x ∈ chunk k, key x = k) →
      keyList key (ks.flatMap chunk) = ks.filter (fun k => !(chunk k).isEmpty)
  | [], _, _ => rfl
  | k :: ks', hnd, hhom => by
      have hnd' := (List.nodup_cons.mp hnd).2
      have hk' := (List.nodup_cons.mp hnd).1
      have hhom' : ∀ k2 ∈ ks', ∀ x ∈ chunk k2, key x = k2 :=
        fun k2 hk2 => hhom k2 (by simp [hk2])
      rw [List.flatMap_cons,
        keyList_append_homog key k (chunk k) _ (hhom k (by simp)),
        keyList_flatMap_chunks key chunk ks' hnd' hhom']
      by_cases he : (chunk k).isEmpty
      · rw [if_pos he, List.filter_cons_of_neg (by simp [he])]
      · rw [if_neg he, List.filter_cons_of_pos (by simp [he])]
        congr 1
        refine List.filter_eq_self.mpr ?_
        intro k2 hk2
        have : k2 ∈ ks' := List.mem_of_mem_filter hk2
        simp only [Bool.not_eq_true']
        exact decide_eq_false (fun hkk => hk' (hkk ▸ this))

theorem chunks_filter_key {α κ : Type} [DecidableEq κ] (key : α → κ)
    (chunk : κ → List α) (k0 : κ) :
    (ks : List κ) → ks.Nodup → (∀ k ∈ ks, ∀ x ∈ chunk k, key x = k) →
      k0 ∈ ks →
      (ks.flatMap chunk).filter (fun x => decide (key x = k0)) = chunk k0
  | [], _, _, h => absurd h (List.not_mem_nil k0)
  | k :: ks', hnd, hhom, hmem => by
      have hnd' := (List.nodup_cons.mp hnd).2
      have hk' := (List.nodup_cons.mp hnd).1
      have hhom' : ∀ k2 ∈ ks', ∀ x ∈ chunk k2, key x = k2 :=
        fun k2 hk2 => hhom k2 (by simp [hk2])
      rw [List.flatMap_cons, List.filter_append]
      rcases List.mem_cons.mp hmem with rfl | hmem'
      · have h1 : (chunk k0).filter (fun x => decide (key x = k0)) = chunk k0 :=
          List.filter_eq_self.mpr (fun x hx => by
            simp [hhom k0 (by simp) x hx])
        have h2 : (ks'.flatMap chunk).filter
            (fun x => decide (key x = k0)) = [] := by
          rw [List.filter_eq_nil_iff]
          intro x hx
          obtain ⟨k2, hk2, hxk2⟩ := List.mem_flatMap.mp hx
          have := hhom' k2 hk2 x hxk2
          simp only [decide_eq_true_eq]
          intro hxx
          exact hk' (by rw [← hxx, this]; exact hk2)
        rw [h1, h2, List.append_nil]
      · have hkne : k ≠ k0 := fun he => hk' (he ▸ hmem')
        have h1 : (chunk k).filter (fun x => decide (key x = k0)) = [] := by
          rw [List.filter_eq_nil_iff]
          intro x hx
          have := hhom k (by simp) x hx
          simp only [decide_eq_true_eq]
          exact fun hxx => hkne (by rw [← this, hxx])
        rw [h1, List.nil_append]
        exact chunks_filter_key key chunk k0 ks' hnd' hhom' hmem'

/-! ### Properties of the per-process verification step -/

theorem processGroup_nil (env : Probe) (k : String) :
    processGroup env k [] = [] := by
  unfold processGroup
  split <;> simp

theorem mem_processGroup (env : Probe) (k : String)
    (g : List TrackedWindow) (w : TrackedWindow) :
    w ∈ processGroup env k g ↔
      env.isRunning k = true ∧ w ∈ g ∧
        (w.trackingMode = TrackingMode.app ∨
          (w.trackingMode = TrackingMode.window ∧
            w.systemWindowId ∈ env.windowIds k)) := by
  unfold processGroup
  by_cases hr : env.isRunning k
  · rw [if_pos hr]
    simp only [List.mem_append, List.mem_filter]
    constructor
    · rintro (⟨hg, hm⟩ | ⟨⟨hg, hm⟩, hc⟩)
      · exact ⟨hr, hg, Or.inl (by simpa using hm)⟩
      · exact ⟨hr, hg, Or.inr ⟨by simpa using hm, by simpa using hc⟩⟩
    · rintro ⟨_, hg, hmode | ⟨hmode, hid⟩⟩
      · exact Or.inl ⟨hg, by simpa using hmode⟩
      · exact Or.inr ⟨⟨hg, by simpa using hmode⟩, by simpa using hid⟩
  · rw [if_neg hr]
    simp only [List.not_mem_nil, false_iff]
    rintro ⟨habs, _⟩
    exact hr habs

theorem processGroup_subset (env : Probe) (k : String)
    (g : List TrackedWindow) (w : TrackedWindow)
    (h : w ∈ processGroup env k g) : w ∈ g :=
  ((mem_processGroup env k g w).mp h).2.1

theorem processGroup_pos (env : Probe) (k : String)
    (g : List TrackedWindow) (hr : env.isRunning k = true) :
    processGroup env k g =
      g.filter (fun w => decide (w.trackingMode = TrackingMode.app)) ++
        (g.filter (fun w =>
          decide (w.trackingMode = TrackingMode.window))).filter
          (fun w => (env.windowIds k).contains w.systemWindowId) := by
  unfold processGroup
  rw [if_pos hr]

theorem processGroup_neg (env : Probe) (k : String)
    (g : List TrackedWindow) (hr : ¬ env.isRunning k = true) :
    processGroup env k g = [] := by
  unfold processGroup
  rw [if_neg hr]

theorem processGroup_idem (env : Probe) (k : String)
    (g : List TrackedWindow) :
    processGroup env k (processGroup env k g) = processGroup env k g := by
  by_cases hr : env.isRunning k
  · rw [processGroup_pos env k g hr, processGroup_pos env k _ hr]
    have hWnotA : ∀ w ∈ (g.filter (fun w =>
        decide (w.trackingMode = TrackingMode.window))).filter
          (fun w => (env.windowIds k).contains w.systemWindowId),
        decide (w.trackingMode = TrackingMode.app) = false := by
      intro w hw
      have := List.of_mem_filter (List.mem_of_mem_filter hw)
      simp only [decide_eq_true_eq] at this
      simp [this]
    have hAnotW : ∀ w ∈ g.filter (fun w =>
        decide (w.trackingMode = TrackingMode.app)),
        decide (w.trackingMode = TrackingMode.window) = false := by
      intro w hw
      have := List.of_mem_filter hw
      simp only [decide_eq_true_eq] at this
      simp [this]
    have hW0 : ((g.filter (fun w =>
        decide (w.trackingMode = TrackingMode.window))).filter
          (fun w => (env.windowIds k).contains w.systemWindowId)).filter
          (fun w => decide (w.trackingMode = TrackingMode.app)) = [] :=
      List.filter_eq_nil_iff.mpr (fun w hw => by simp [hWnotA w hw])
    have hA0 : (g.filter (fun w =>
        decide (w.trackingMode = TrackingMode.app))).filter
          (fun w => decide (w.trackingMode = TrackingMode.window)) = [] :=
      List.filter_eq_nil_iff.mpr (fun w hw => by simp [hAnotW w hw])
    have hWW : ((g.filter (fun w =>
        decide (w.trackingMode = TrackingMode.window))).filter
          (fun w => (env.windowIds k).contains w.systemWindowId)).filter
          (fun w => decide (w.trackingMode = TrackingMode.window)) =
        (g.filter (fun w =>
          decide (w.trackingMode = TrackingMode.window))).filter
          (fun w => (env.windowIds k).contains w.systemWindowId) :=
      List.filter_eq_self.mpr (fun w hw => by
        have h1 : w ∈ g.filter (fun w =>
            decide (w.trackingMode = TrackingMode.window)) :=
          List.mem_of_mem_filter hw
        exact (List.mem_filter.mp h1).2)
    rw [List.filter_append, filter_idem, hW0, List.append_nil,
      List.filter_append, hA0, List.nil_append, hWW, filter_idem]
  · rw [processGroup_neg env k g hr, processGroup_neg env k _ hr]

/-- Lemma: `verifyWindows` written as a flat map over the first-occurrence key
list. -/
theorem verifyWindows_eq_flatMap (env : Probe) (ws : List TrackedWindow) :
    verifyWindows env ws =
      (keyList (fun w => w.appName) ws).flatMap
        (fun k => processGroup env k
          (ws.filter (fun y => decide (y.appName = k)))) := by
  unfold verifyWindows groupByKey
  simp [List.flatMap_map]

/-- C3: `verifyWindows` keeps exactly the artifacts of live process groups
that are app-mode, or window-mode with a still-present window id; artifacts
of dead groups are all dropped. -/
theorem verifyWindows_membership (env : Probe) (ws : List TrackedWindow)
    (w : TrackedWindow) :
    w ∈ verifyWindows env ws ↔
      w ∈ ws ∧ env.isRunning w.appName = true ∧
        (w.trackingMode = TrackingMode.app ∨
          (w.trackingMode = TrackingMode.window ∧
            w.systemWindowId ∈ env.windowIds w.appName)) := by
  rw [verifyWindows_eq_flatMap]
  simp only [List.mem_flatMap]
  constructor
  · rintro ⟨k, hk, hw⟩
    rw [mem_processGroup] at hw
    obtain ⟨hr, hg, hcase⟩ := hw
    have hkey : w.appName = k := by simpa using List.of_mem_filter hg
    subst hkey
    exact ⟨List.mem_of_mem_filter hg, hr, hcase⟩
  · rintro ⟨hmem, hr, hcase⟩
    refine ⟨w.appName, (mem_keyList _ ws w.appName).mpr ⟨w, hmem, rfl⟩, ?_⟩
    rw [mem_processGroup]
    exact ⟨hr, List.mem_filter.mpr ⟨hmem, by simp⟩, hcase⟩

/-- C8: with unchanged probe answers, verification is idempotent:
verifying the survivors of a verification returns them unchanged. -/
theorem verifyWindows_idempotent (env : Probe) (ws : List TrackedWindow) :
    verifyWindows env (verifyWindows env ws) = verifyWindows env ws := by
  have hks : (keyList (fun w : TrackedWindow => w.appName) ws).Nodup :=
    keyList_nodup _ _
  have hhom : ∀ k ∈ keyList (fun w : TrackedWindow => w.appName) ws,
      ∀ x ∈ processGroup env k
        (ws.filter (fun y => decide (y.appName = k))), x.appName = k := by
    intro k _ x hx
    have := processGroup_subset env k _ x hx
    simpa using List.of_mem_filter this
  rw [verifyWindows_eq_flatMap env ws,
    verifyWindows_eq_flatMap env
      ((keyList (fun w : TrackedWindow => w.appName) ws).flatMap
        (fun k => processGroup env k
          (ws.filter (fun y => decide (y.appName = k))))),
    keyList_flatMap_chunks _ _ _ hks hhom,
    flatMap_congr_mem _ _
      (fun k => processGroup env k (processGroup env k
        (ws.filter (fun y => decide (y.appName = k)))))
      (fun k hk => by
        rw [chunks_filter_key _ _ k _ hks hhom (List.mem_of_mem_filter hk)]),
    flatMap_filter_eq _ _ _
      (fun k _ hempty => by
        have hnil : processGroup env k
            (ws.filter (fun y => decide (y.appName = k))) = [] := by
          simpa [List.isEmpty_iff] using hempty
        rw [hnil, processGroup_nil])]
  exact flatMap_congr_mem _ _ _ (fun k _ => processGroup_idem env k _)

/-- C4 witness: the app-mode artifact produced for a not-running process
with no window ids has the sentinel id. -/
theorem app_mode_has_sentinel_witness :
    ({ id := "u", systemWindowId := 0, itemId := "item-1"
       appName := "Calendar", windowTitle := some "Calendar"
       type := WorkspaceItemType.app, trackingMode := TrackingMode.app
       launchedAt := 0 } : TrackedWindow).systemWindowId = 0 :=
  app_mode_has_sentinel probeNone probeNone probeNone uuidFix 0 stNotRunning
    itemCal _ (Or.inl (by decide)) (by decide)

end Respace

namespace Respace

/-- C6: a timed-out or failed scripting-bridge call makes each probe
return its degraded value — `[]` for window-id enumeration, `none` for
title lookup, `false` for the liveness check — and each probe is a total
function into its answer type, so no exception reaches the caller. -/
theorem probes_degrade_on_failure :
    getWindowIds ExecOutcome.timeout = [] ∧
    getWindowIds ExecOutcome.bridgeError = [] ∧
    getWindowTitle ExecOutcome.timeout = none ∧
    getWindowTitle ExecOutcome.bridgeError = none ∧
    (∀ e : String, isAppRunning (Except.error e) = false) :=
  ⟨by decide, by decide, by decide, by decide, fun _ => rfl⟩

/-- Lemma: `verifyAllWindows` written as a flat map over the first-occurrence
type list. -/
theorem verifyAllWindows_eq_flatMap
    (registry : WorkspaceItemType → Option StrategyVerify)
    (ws : List TrackedWindow) :
    verifyAllWindows registry ws =
      (keyList (fun w => w.type) ws).flatMap (fun k =>
        match registry k with
        | none => []
        | some f =>
            match f (ws.filter (fun y => decide (y.type = k))) with
            | Except.ok kept => kept
            | Except.error _ => []) := by
  unfold verifyAllWindows groupByKey
  simp [List.flatMap_map]

/-- C10: when every registered strategy returns artifacts drawn from its
input group, `verifyAllWindows` returns only artifacts of its input,
unchanged; artifacts whose type has no registered strategy are omitted;
and a type group whose strategy throws is omitted whole, without the
error escaping. -/
theorem verifyAllWindows_spec
    (registry : WorkspaceItemType → Option StrategyVerify)
    (ws : List TrackedWindow)
    (hsub : ∀ ty f g kept, registry ty = some f → f g = Except.ok kept →
      ∀ w ∈ kept, w ∈ g) :
    (∀ w ∈ verifyAllWindows registry ws, w ∈ ws) ∧
    (∀ w ∈ ws, registry w.type = none →
      w ∉ verifyAllWindows registry ws) ∧
    (∀ w ∈ ws, ∀ f e, registry w.type = some f →
      f (ws.filter (fun y => decide (y.type = w.type))) = Except.error e →
      w ∉ verifyAllWindows registry ws) := by
  have hmem : ∀ w ∈ verifyAllWindows registry ws,
      ∃ f kept, registry w.type = some f ∧
        f (ws.filter (fun y => decide (y.type = w.type))) = Except.ok kept ∧
        w ∈ kept ∧ w ∈ ws := by
    intro w hw
    rw [verifyAllWindows_eq_flatMap] at hw
    obtain ⟨k, _, hin⟩ := List.mem_flatMap.mp hw
    cases hreg : registry k with
    | none => simp [hreg] at hin
    | some f =>
        simp only [hreg] at hin
        cases hres : f (ws.filter (fun y => decide (y.type = k))) with
        | error e => simp [hres] at hin
        | ok kept =>
            simp only [hres] at hin
            have hwg : w ∈ ws.filter (fun y => decide (y.type = k)) :=
              hsub k f _ kept hreg hres w hin
            have hk : w.type = k := by simpa using List.of_mem_filter hwg
            subst hk
            exact ⟨f, kept, hreg, hres, hin, List.mem_of_mem_filter hwg⟩
  refine ⟨?_, ?_, ?_⟩
  · intro w hw
    obtain ⟨f, kept, _, _, _, hws⟩ := hmem w hw
    exact hws
  · intro w _ hnone hw
    obtain ⟨f, kept, hreg, _, _, _⟩ := hmem w hw
    rw [hnone] at hreg
    exact absurd hreg (by simp)
  · intro w _ f e hreg herr hw
    obtain ⟨f2, kept, hreg2, hres2, _, _⟩ := hmem w hw
    rw [hreg] at hreg2
    have hf : f = f2 := by
      simpa using hreg2
    rw [← hf] at hres2
    rw [herr] at hres2
    exact absurd hres2 (by simp)

/-- C10 witness: a three-type artifact list with a keeping app strategy, a
throwing url strategy and no strategy for file artifacts. -/
theorem verifyAllWindows_spec_witness :
    (∀ w ∈ verifyAllWindows registryW [twApp, twUrl, twFile],
      w ∈ [twApp, twUrl, twFile]) ∧
    (∀ w ∈ [twApp, twUrl, twFile], registryW w.type = none →
      w ∉ verifyAllWindows registryW [twApp, twUrl, twFile]) ∧
    (∀ w ∈ [twApp, twUrl, twFile], ∀ f e, registryW w.type = some f →
      f ([twApp, twUrl, twFile].filter (fun y => decide (y.type = w.type)))
        = Except.error e →
      w ∉ verifyAllWindows registryW [twApp, twUrl, twFile]) :=
  verifyAllWindows_spec registryW [twApp, twUrl, twFile]
    (by
      intro ty f g kept hf hok w hw
      cases ty <;> simp only [registryW, Option.some.injEq,
        reduceCtorEq] at hf
      · rw [← hf] at hok
        simp only [Except.ok.injEq] at hok
        rw [hok]
        exact hw
      · rw [← hf] at hok
        exact absurd hok (by simp))

/-! ### The launch report (claim C5) -/

theorem length_filter_partition {α : Type} (p : α → Bool) (l : List α) :
    (l.filter p).length + (l.filter (fun x => !p x)).length = l.length := by
  induction l with
  | nil => rfl
  | cons a t ih =>
      cases hpa : p a <;> simp [List.filter_cons, hpa] <;> omega

/-- The recorded errors of the phased `launchWorkspace` are exactly the
messages of the failing non-application launches, in order. -/
theorem errors_are_other_failures (env : LaunchEnv) :
    (l : List WorkspaceItem) →
      (∀ i ∈ l, ¬ i.type = WorkspaceItemType.app) →
      l.filterMap (fun i =>
        match env.otherLaunch i with
        | Except.ok _ => none
        | Except.error e => some e) =
      (l.filter (fun i => !launchSucceeded env i)).map
        (fun i => errTextOf (env.otherLaunch i))
  | [], _ => rfl
  | i :: t, h => by
      have hne := h i (by simp)
      have hrec := errors_are_other_failures env t
        (fun j hj => h j (by simp [hj]))
      cases hres : env.otherLaunch i with
      | ok ws =>
          have hsucc : launchSucceeded env i = true := by
            simp [launchSucceeded, hne, hres]
          simp [List.filterMap_cons, hres, List.filter_cons, hsucc, hrec]
      | error e =>
          have hsucc : launchSucceeded env i = false := by
            simp [launchSucceeded, hne, hres]
          simp [List.filterMap_cons, hres, List.filter_cons, hsucc, hrec,
            errTextOf]

/-- C5 counterexample: a workspace with one application item whose launch
command fails.  The failure is swallowed inside phase B, so the terminal
report still counts the item as a success: `successCount = 1` although no
item launched successfully. -/
theorem launch_success_count_counterexample :
    launchSucceeded envAppFails itemCal = false ∧
    ([itemCal].filter (fun i => launchSucceeded envAppFails i)).length = 0 ∧
    (launchWorkspaceReport envAppFails [itemCal]).successCount = 1 := by
  refine ⟨by decide, by decide, by decide⟩

/-- C5 amended: the batch always runs to completion and reports
`successCount` over `total = items.length`, where `successCount` counts
every application item (their launch failures are logged and swallowed,
never recorded) plus the non-application items whose launch succeeded; the
recorded errors are exactly the failing non-application launches in order,
so the surfaced representative message is the first such failure. -/
theorem launchWorkspace_report_spec (env : LaunchEnv)
    (items : List WorkspaceItem) :
    (launchWorkspaceReport env items).total = items.length ∧
    (launchWorkspaceReport env items).successCount =
      (appItems items).length +
        ((otherItems items).filter (fun i => launchSucceeded env i)).length ∧
    (launchWorkspaceReport env items).errors =
      ((otherItems items).filter (fun i => !launchSucceeded env i)).map
        (fun i => errTextOf (env.otherLaunch i)) := by
  have hall : ∀ i ∈ otherItems items, ¬ i.type = WorkspaceItemType.app := by
    intro i hi
    have := List.of_mem_filter hi
    simpa using this
  have herr := errors_are_other_failures env (otherItems items) hall
  refine ⟨rfl, ?_, herr⟩
  have h1 : (appItems items).length + (otherItems items).length
      = items.length := length_filter_partition _ items
  have h2 : ((otherItems items).filter
        (fun i => launchSucceeded env i)).length +
      ((otherItems items).filter
        (fun i => !launchSucceeded env i)).length
      = (otherItems items).length :=
    length_filter_partition _ (otherItems items)
  show items.length - ((otherItems items).filterMap (fun i =>
      match env.otherLaunch i with
      | Except.ok _ => none
      | Except.error e => some e)).length = _
  rw [herr, List.length_map]
  omega

/-! ### Bucket ordering of the application pipeline (claim C7) -/

theorem mem_bucketTrace (e : SchedEvent) (d : Nat)
    (g : List WorkspaceItem) :
    e ∈ bucketTrace d g ↔
      ((e = SchedEvent.suspend d ∧ 0 < d) ∨ e = SchedEvent.phaseA d g ∨
        e = SchedEvent.phaseB d g ∨ e = SchedEvent.settle d ∨
        e = SchedEvent.phaseC d g) := by
  unfold bucketTrace
  by_cases hd : 0 < d
  · rw [if_pos hd]
    simp [hd]
  · rw [if_neg hd]
    simp [hd]

theorem phaseA_only (items : List WorkspaceItem) (d : Nat) :
    ∀ d2, SchedEvent.phaseA d (bucketOf items d)
      ∈ bucketTrace d2 (bucketOf items d2) → d2 = d := by
  intro d2 hm
  rw [mem_bucketTrace] at hm
  rcases hm with ⟨he, _⟩ | he | he | he | he
  · exact SchedEvent.noConfusion he
  · injection he with hd hb
    exact hd.symm
  · exact SchedEvent.noConfusion he
  · exact SchedEvent.noConfusion he
  · exact SchedEvent.noConfusion he

theorem phaseB_only (items : List WorkspaceItem) (d : Nat) :
    ∀ d2, SchedEvent.phaseB d (bucketOf items d)
      ∈ bucketTrace d2 (bucketOf items d2) → d2 = d := by
  intro d2 hm
  rw [mem_bucketTrace] at hm
  rcases hm with ⟨he, _⟩ | he | he | he | he
  · exact SchedEvent.noConfusion he
  · exact SchedEvent.noConfusion he
  · injection he with hd hb
    exact hd.symm
  · exact SchedEvent.noConfusion he
  · exact SchedEvent.noConfusion he

theorem phaseC_only (items : List WorkspaceItem) (d : Nat) :
    ∀ d2, SchedEvent.phaseC d (bucketOf items d)
      ∈ bucketTrace d2 (bucketOf items d2) → d2 = d := by
  intro d2 hm
  rw [mem_bucketTrace] at hm
  rcases hm with ⟨he, _⟩ | he | he | he | he
  · exact SchedEvent.noConfusion he
  · exact SchedEvent.noConfusion he
  · exact SchedEvent.noConfusion he
  · exact SchedEvent.noConfusion he
  · injection he with hd hb
    exact hd.symm

theorem suspend_only (items : List WorkspaceItem) (d : Nat) :
    ∀ d2, SchedEvent.suspend d
      ∈ bucketTrace d2 (bucketOf items d2) → d2 = d := by
  intro d2 hm
  rw [mem_bucketTrace] at hm
  rcases hm with ⟨he, _⟩ | he | he | he | he
  · injection he with hd
    exact hd.symm
  · exact SchedEvent.noConfusion he
  · exact SchedEvent.noConfusion he
  · exact SchedEvent.noConfusion he
  · exact SchedEvent.noConfusion he

theorem bucketTrace_internal_order (d : Nat) (g : List WorkspaceItem) :
    (0 < d → (bucketTrace d g).indexOf (SchedEvent.suspend d) <
      (bucketTrace d g).indexOf (SchedEvent.phaseA d g)) ∧
    (bucketTrace d g).indexOf (SchedEvent.phaseA d g) <
      (bucketTrace d g).indexOf (SchedEvent.phaseB d g) ∧
    (bucketTrace d g).indexOf (SchedEvent.phaseB d g) <
      (bucketTrace d g).indexOf (SchedEvent.phaseC d g) := by
  unfold bucketTrace
  by_cases hd : 0 < d
  · rw [if_pos hd]
    refine ⟨fun _ => ?_, ?_, ?_⟩ <;> simp [List.indexOf_cons]
  · rw [if_neg hd]
    refine ⟨fun h => absurd h hd, ?_, ?_⟩ <;> simp [List.indexOf_cons]

/-- Ordering in a bucket trace list: an event that occurs only in the
bucket of `d1` precedes, in the whole schedule, an event that occurs only
in the bucket of `d2`, whenever `d1 < d2` and the bucket delays are
strictly ascending. -/
theorem sched_cross (f : Nat → List SchedEvent) (e1 e2 : SchedEvent)
    (d1 d2 : Nat) (hin1 : e1 ∈ f d1)
    (honly1 : ∀ d, e1 ∈ f d → d = d1) (honly2 : ∀ d, e2 ∈ f d → d = d2)
    (hlt : d1 < d2) :
    (ks : List Nat) → ks.Pairwise (· < ·) → d1 ∈ ks → d2 ∈ ks →
      (ks.flatMap f).indexOf e1 < (ks.flatMap f).indexOf e2
  | [], _, h, _ => absurd h (List.not_mem_nil d1)
  | k :: ks', hp, h1, h2 => by
      have hhead := (List.pairwise_cons.mp hp).1
      have htail := (List.pairwise_cons.mp hp).2
      rw [List.flatMap_cons]
      rcases List.mem_cons.mp h1 with rfl | h1'
      · have h2' : d2 ∈ ks' := by
          rcases List.mem_cons.mp h2 with rfl | h
          · exact absurd hlt (lt_irrefl _)
          · exact h
        have hnot2 : e2 ∉ f d1 := fun hmem =>
          Nat.ne_of_gt hlt (honly2 d1 hmem).symm
        rw [List.indexOf_append_of_mem hin1,
          List.indexOf_append_of_not_mem hnot2]
        exact Nat.lt_of_lt_of_le (List.indexOf_lt_length.mpr hin1)
          (Nat.le_add_right _ _)
      · have h2' : d2 ∈ ks' := by
          rcases List.mem_cons.mp h2 with rfl | h
          · exact absurd (Nat.lt_trans (hhead d1 h1') hlt) (lt_irrefl _)
          · exact h
        have hnot1 : e1 ∉ f k := fun hm =>
          Nat.ne_of_lt (hhead d1 h1') (honly1 k hm)
        have hnot2 : e2 ∉ f k := fun hm =>
          Nat.ne_of_lt (hhead d2 h2') (honly2 k hm)
        rw [List.indexOf_append_of_not_mem hnot1,
          List.indexOf_append_of_not_mem hnot2]
        exact Nat.add_lt_add_left
          (sched_cross f e1 e2 d1 d2 hin1 honly1 honly2 hlt ks'
            htail h1' h2') _

/-- Ordering in a bucket trace list: two events that occur only in the
bucket of `d` keep their relative order in the whole schedule. -/
theorem sched_within (f : Nat → List SchedEvent) (e1 e2 : SchedEvent)
    (d : Nat) (hin1 : e1 ∈ f d) (hin2 : e2 ∈ f d)
    (honly1 : ∀ d2, e1 ∈ f d2 → d2 = d)
    (honly2 : ∀ d2, e2 ∈ f d2 → d2 = d)
    (hidx : (f d).indexOf e1 < (f d).indexOf e2) :
    (ks : List Nat) → ks.Pairwise (· < ·) → d ∈ ks →
      (ks.flatMap f).indexOf e1 < (ks.flatMap f).indexOf e2
  | [], _, h => absurd h (List.not_mem_nil d)
  | k :: ks', hp, h1 => by
      have hhead := (List.pairwise_cons.mp hp).1
      have htail := (List.pairwise_cons.mp hp).2
      rw [List.flatMap_cons]
      rcases List.mem_cons.mp h1 with rfl | h1'
      · rw [List.indexOf_append_of_mem hin1,
          List.indexOf_append_of_mem hin2]
        exact hidx
      · have hkd : k ≠ d := Nat.ne_of_lt (hhead d h1')
        have hnot1 : e1 ∉ f k := fun hm => hkd (honly1 k hm)
        have hnot2 : e2 ∉ f k := fun hm => hkd (honly2 k hm)
        rw [List.indexOf_append_of_not_mem hnot1,
          List.indexOf_append_of_not_mem hnot2]
        exact Nat.add_lt_add_left
          (sched_within f e1 e2 d hin1 hin2 honly1 honly2 hidx ks'
            htail h1') _

theorem sortedDelays_pairwise (items : List WorkspaceItem) :
    (sortedDelays items).Pairwise (· < ·) := by
  have hs : (sortedDelays items).Sorted (· ≤ ·) :=
    List.sorted_insertionSort _ _
  have hn : (sortedDelays items).Nodup :=
    ((List.perm_insertionSort (· ≤ ·)
      (keyList delayOf (appItems items))).nodup_iff).mpr
      (keyList_nodup _ _)
  exact (List.Pairwise.and hs hn).imp
    (fun h => Nat.lt_of_le_of_ne h.1 h.2)

/-- C7: the delay buckets of application items run strictly sequentially
in ascending delay order: inside a bucket the phases run in order, a later
bucket's phase A comes only after every earlier bucket's phase C, and for
a bucket with a positive delay the suspension of that delay sits after
every earlier bucket's completion and before the bucket's phase A. -/
theorem appSchedule_bucket_ordering (items : List WorkspaceItem)
    (d1 d2 : Nat) (h1 : d1 ∈ sortedDelays items)
    (h2 : d2 ∈ sortedDelays items) (hlt : d1 < d2) :
    ((appSchedule items).indexOf
        (SchedEvent.phaseA d1 (bucketOf items d1)) <
      (appSchedule items).indexOf
        (SchedEvent.phaseB d1 (bucketOf items d1)) ∧
      (appSchedule items).indexOf
        (SchedEvent.phaseB d1 (bucketOf items d1)) <
      (appSchedule items).indexOf
        (SchedEvent.phaseC d1 (bucketOf items d1))) ∧
    (appSchedule items).indexOf
        (SchedEvent.phaseC d1 (bucketOf items d1)) <
      (appSchedule items).indexOf
        (SchedEvent.phaseA d2 (bucketOf items d2)) ∧
    (0 < d2 →
      (appSchedule items).indexOf
          (SchedEvent.phaseC d1 (bucketOf items d1)) <
        (appSchedule items).indexOf (SchedEvent.suspend d2) ∧
      (appSchedule items).indexOf (SchedEvent.suspend d2) <
        (appSchedule items).indexOf
          (SchedEvent.phaseA d2 (bucketOf items d2))) := by
  have hpw := sortedDelays_pairwise items
  have hinA1 : SchedEvent.phaseA d1 (bucketOf items d1)
      ∈ bucketTrace d1 (bucketOf items d1) :=
    (mem_bucketTrace _ _ _).mpr (Or.inr (Or.inl rfl))
  have hinB1 : SchedEvent.phaseB d1 (bucketOf items d1)
      ∈ bucketTrace d1 (bucketOf items d1) :=
    (mem_bucketTrace _ _ _).mpr (Or.inr (Or.inr (Or.inl rfl)))
  have hinC1 : SchedEvent.phaseC d1 (bucketOf items d1)
      ∈ bucketTrace d1 (bucketOf items d1) :=
    (mem_bucketTrace _ _ _).mpr (Or.inr (Or.inr (Or.inr (Or.inr rfl))))
  have hinA2 : SchedEvent.phaseA d2 (bucketOf items d2)
      ∈ bucketTrace d2 (bucketOf items d2) :=
    (mem_bucketTrace _ _ _).mpr (Or.inr (Or.inl rfl))
  refine ⟨⟨?_, ?_⟩, ?_, fun hd2 => ⟨?_, ?_⟩⟩
  · exact sched_within _ _ _ d1 hinA1 hinB1 (phaseA_only items d1)
      (phaseB_only items d1)
      (bucketTrace_internal_order d1 (bucketOf items d1)).2.1
      (sortedDelays items) hpw h1
  · exact sched_within _ _ _ d1 hinB1 hinC1 (phaseB_only items d1)
      (phaseC_only items d1)
      (bucketTrace_internal_order d1 (bucketOf items d1)).2.2
      (sortedDelays items) hpw h1
  · exact sched_cross _ _ _ d1 d2 hinC1 (phaseC_only items d1)
      (phaseA_only items d2) hlt (sortedDelays items) hpw h1 h2
  · exact sched_cross _ _ _ d1 d2 hinC1 (phaseC_only items d1)
      (suspend_only items d2) hlt (sortedDelays items) hpw h1 h2
  · exact sched_within _ _ _ d2
      ((mem_bucketTrace _ _ _).mpr (Or.inl ⟨rfl, ‹0 < d2›⟩)) hinA2
      (suspend_only items d2) (phaseA_only items d2)
      ((bucketTrace_internal_order d2 (bucketOf items d2)).1 ‹0 < d2›)
      (sortedDelays items) hpw h2

/-- C7 witness: a zero-delay Calendar item and a 500 ms Spotify item; the
500 ms bucket's suspension and phase A follow the zero bucket's phase
C. -/
theorem appSchedule_bucket_ordering_witness :
    ((appSchedule [itemCal, itemApp500]).indexOf
        (SchedEvent.phaseA 0 (bucketOf [itemCal, itemApp500] 0)) <
      (appSchedule [itemCal, itemApp500]).indexOf
        (SchedEvent.phaseB 0 (bucketOf [itemCal, itemApp500] 0)) ∧
      (appSchedule [itemCal, itemApp500]).indexOf
        (SchedEvent.phaseB 0 (bucketOf [itemCal, itemApp500] 0)) <
      (appSchedule [itemCal, itemApp500]).indexOf
        (SchedEvent.phaseC 0 (bucketOf [itemCal, itemApp500] 0))) ∧
    (appSchedule [itemCal, itemApp500]).indexOf
        (SchedEvent.phaseC 0 (bucketOf [itemCal, itemApp500] 0)) <
      (appSchedule [itemCal, itemApp500]).indexOf
        (SchedEvent.phaseA 500 (bucketOf [itemCal, itemApp500] 500)) ∧
    (0 < 500 →
      (appSchedule [itemCal, itemApp500]).indexOf
          (SchedEvent.phaseC 0 (bucketOf [itemCal, itemApp500] 0)) <
        (appSchedule [itemCal, itemApp500]).indexOf
          (SchedEvent.suspend 500) ∧
      (appSchedule [itemCal, itemApp500]).indexOf
          (SchedEvent.suspend 500) <
        (appSchedule [itemCal, itemApp500]).indexOf
          (SchedEvent.phaseA 500 (bucketOf [itemCal, itemApp500] 500))) :=
  appSchedule_bucket_ordering [itemCal, itemApp500] 0 500
    (by decide) (by decide) (by decide)

/-! ### Per-item delay of non-application items (claim C9) -/

/-- C9 at the failing input: a url item configured with a 500 ms delay.
The phased `launchWorkspace` issues its launch with no suspension at all,
while the earlier sequential revision suspended the full 500 ms first. -/
theorem otherItem_delay_ignored :
    delayOf itemUrl500 = 500 ∧
    sleepBeforeLaunch (otherItemSteps itemUrl500) = 0 ∧
    sleepBeforeLaunch (sequentialItemSteps itemUrl500) = 500 := by
  refine ⟨by decide, by decide, by decide⟩

end Respace
